import Mathlib

/-!
Shallow embedding of the ray tracer in `src/main.rs` (digideskio/ray-trace).

The source works over `f32`; scalars are modelled as real numbers.  The
`Surface` and `Material` traits are declared in the `surface` module whose
file is absent from the sources; they are modelled as records of the
functions `main.rs` calls on them (`intersect`, `material`, `raw_color`,
`color`, `reflectivity`), which is exactly the trait interface.
-/

namespace RayTrace

open scoped Classical

/-- `nalgebra::Vec3<f32>`, modelled with real components. -/
structure Vec3 where
  x : ℝ
  y : ℝ
  z : ℝ

theorem Vec3.ext_iff2 (a b : Vec3) : a = b ↔ a.x = b.x ∧ a.y = b.y ∧ a.z = b.z := by
  cases a; cases b; simp

instance : Zero Vec3 := ⟨⟨0, 0, 0⟩⟩

instance : Add Vec3 := ⟨fun a b => ⟨a.x + b.x, a.y + b.y, a.z + b.z⟩⟩

instance : Sub Vec3 := ⟨fun a b => ⟨a.x - b.x, a.y - b.y, a.z - b.z⟩⟩

/-- Scaling a vector by a scalar on the right, as nalgebra's `Vec3<f32> * f32`. -/
instance : HMul Vec3 ℝ Vec3 := ⟨fun v a => ⟨v.x * a, v.y * a, v.z * a⟩⟩

theorem Vec3.zero_def : (0 : Vec3) = ⟨0, 0, 0⟩ := rfl

theorem Vec3.add_def (a b : Vec3) : a + b = ⟨a.x + b.x, a.y + b.y, a.z + b.z⟩ := rfl

theorem Vec3.sub_def (a b : Vec3) : a - b = ⟨a.x - b.x, a.y - b.y, a.z - b.z⟩ := rfl

theorem Vec3.smul_def (v : Vec3) (a : ℝ) : v * a = ⟨v.x * a, v.y * a, v.z * a⟩ := rfl

/-- `nalgebra::dot`. -/
def dot (a b : Vec3) : ℝ := a.x * b.x + a.y * b.y + a.z * b.z

/-- `nalgebra::cross`. -/
def cross (a b : Vec3) : Vec3 :=
  ⟨a.y * b.z - a.z * b.y, a.z * b.x - a.x * b.z, a.x * b.y - a.y * b.x⟩

/-- Euclidean norm, `nalgebra::Norm::norm`. -/
noncomputable def norm (v : Vec3) : ℝ := Real.sqrt (dot v v)

/-- `nalgebra::Norm::normalize`: divide by the norm. -/
noncomputable def normalize (v : Vec3) : Vec3 := v * (norm v)⁻¹

theorem dot_comm (a b : Vec3) : dot a b = dot b a := by
  simp [dot]; ring

theorem dot_self_nonneg (v : Vec3) : 0 ≤ dot v v := by
  have hx := mul_self_nonneg v.x
  have hy := mul_self_nonneg v.y
  have hz := mul_self_nonneg v.z
  simp only [dot]
  linarith

theorem dot_self_eq_zero_iff (v : Vec3) : dot v v = 0 ↔ v = 0 := by
  constructor
  · intro h
    simp only [dot] at h
    have hx : v.x = 0 := by nlinarith [mul_self_nonneg v.x, mul_self_nonneg v.y, mul_self_nonneg v.z]
    have hy : v.y = 0 := by nlinarith [mul_self_nonneg v.x, mul_self_nonneg v.y, mul_self_nonneg v.z]
    have hz : v.z = 0 := by nlinarith [mul_self_nonneg v.x, mul_self_nonneg v.y, mul_self_nonneg v.z]
    simp [Vec3.ext_iff2, Vec3.zero_def, hx, hy, hz]
  · intro h
    simp [h, Vec3.zero_def, dot]

theorem dot_self_pos (v : Vec3) (h : v ≠ 0) : 0 < dot v v := by
  rcases lt_or_eq_of_le (dot_self_nonneg v) with h' | h'
  · exact h'
  · exact absurd ((dot_self_eq_zero_iff v).1 h'.symm) h

theorem dot_smul_left (v : Vec3) (a : ℝ) (w : Vec3) : dot (v * a) w = a * dot v w := by
  simp [dot, Vec3.smul_def]; ring

theorem dot_smul_right (v : Vec3) (a : ℝ) (w : Vec3) : dot w (v * a) = a * dot w v := by
  simp [dot, Vec3.smul_def]; ring

theorem norm_normalize (v : Vec3) (h : v ≠ 0) : norm (normalize v) = 1 := by
  have hq : 0 < dot v v := dot_self_pos v h
  have hs : Real.sqrt (dot v v) ≠ 0 := by
    have := Real.sqrt_pos.2 hq
    exact ne_of_gt this
  unfold normalize norm
  rw [dot_smul_left, dot_smul_right]
  have key := Real.mul_self_sqrt hq.le
  have h1 : (Real.sqrt (dot v v))⁻¹ * ((Real.sqrt (dot v v))⁻¹ * dot v v) = 1 := by
    field_simp
  rw [h1, Real.sqrt_one]

/-! Constants from `main.rs`. -/

/-- `const WIDTH: u32 = 640`. -/
def WIDTH : ℕ := 640

/-- `const HEIGHT: u32 = 480`. -/
def HEIGHT : ℕ := 480

/-- `const MAX_DEPTH: u16 = 1`. -/
def MAX_DEPTH : ℕ := 1

/-- `const SUPER_SAMPLING: u32 = 1`. -/
def SUPER_SAMPLING : ℕ := 1

/-- `const RENDER_WIDTH: u32 = SUPER_SAMPLING * WIDTH`. -/
def RENDER_WIDTH : ℕ := SUPER_SAMPLING * WIDTH

/-- `const RENDER_HEIGHT: u32 = SUPER_SAMPLING * HEIGHT`. -/
def RENDER_HEIGHT : ℕ := SUPER_SAMPLING * HEIGHT

/-- `f32::EPSILON`, the machine epsilon of `f32`, which is `2^-23`. -/
noncomputable def f32_EPSILON : ℝ := (2 : ℝ) ^ (-23 : ℤ)

/-- `f32::EPSILON.sqrt()`, the offset used for shadow and reflected ray origins. -/
noncomputable def EPS_SQRT : ℝ := Real.sqrt f32_EPSILON

/-- `struct Ray { origin, dir }`. -/
structure Ray where
  origin : Vec3
  dir : Vec3

/-- `Ray::new`: stores the origin and the normalized direction. -/
noncomputable def Ray.new (origin : Vec3) (dir : Vec3) : Ray :=
  ⟨origin, normalize dir⟩

/-- `struct Intersection { pos, normal, dist }`. -/
structure Intersection where
  pos : Vec3
  normal : Vec3
  dist : ℝ

/-- `Intersection::new`. -/
def Intersection.new (pos normal : Vec3) (dist : ℝ) : Intersection :=
  ⟨pos, normal, dist⟩

/-- Modelled from the spec: the `Material` trait is declared in the missing
`src/surface.rs` module; `main.rs` calls `raw_color()` (unlit base color),
`color(shadow_ray, view_ray, hit)` (diffuse/specular response to one light,
pre-intensity-scaling) and `reflectivity()` on it, so it is modelled as a
record of those three functions. -/
structure Material where
  raw_color : Vec3
  color : Ray → Ray → Intersection → Vec3
  reflectivity : ℝ

/-- Modelled from the spec: the `Surface` trait is declared in the missing
`src/surface.rs` module; it tests a ray for the nearest forward intersection
and owns a `Material`, so it is modelled as a record of the `intersect`
function and the owned material. -/
structure Surface where
  intersect : Ray → Option Intersection
  material : Material

/-- `struct PointLight { pos, color, intensity }`. -/
structure PointLight where
  pos : Vec3
  color : Vec3
  intensity : ℝ

/-- `struct Camera { pos, dir, up, right }`. -/
structure Camera where
  pos : Vec3
  dir : Vec3
  up : Vec3
  right : Vec3

/-- `struct Scene { objects, lights, ambient_coeff, ambient_color, camera }`. -/
structure Scene where
  objects : List Surface
  lights : List PointLight
  ambient_coeff : ℝ
  ambient_color : Vec3
  camera : Camera

/-- The body of the loop in `Scene::intersect`: keep the current best
surface/intersection pair, replacing it when the object hits strictly
nearer. -/
noncomputable def intersectStep (ray : Ray) (result : Option (Surface × Intersection))
    (obj : Surface) : Option (Surface × Intersection) :=
  match obj.intersect ray with
  | none => result
  | some hit =>
    match result with
    | none => some (obj, hit)
    | some (_, old_hit) =>
      if hit.dist < old_hit.dist then some (obj, hit) else result

/-- `Scene::intersect`: linear scan over `objects`, starting from `None`. -/
noncomputable def Scene.intersect (scene : Scene) (ray : Ray) : Option (Surface × Intersection) :=
  scene.objects.foldl (intersectStep ray) none

/-- `Camera::new`. -/
noncomputable def Camera.new (pos dir up : Vec3) : Camera :=
  let right := normalize (cross up dir)
  let up' := normalize (cross right dir)
  ⟨pos, normalize dir, up', right⟩

/-- `Camera::from_lookat`. -/
noncomputable def Camera.from_lookat (pos lookat up : Vec3) : Camera :=
  Camera.new pos (lookat - pos) up

/-- `Camera::get_ray`. -/
noncomputable def Camera.get_ray (c : Camera) (x y : ℕ) : Ray :=
  let norm_x := (x : ℝ) / (RENDER_WIDTH : ℝ) - 0.5
  let norm_y := (y : ℝ) / (RENDER_HEIGHT : ℝ) - 0.5
  let dir := c.right * norm_x + c.up * norm_y + c.dir
  Ray.new c.pos dir

/-- The shadow ray `trace_ray` builds for a hit and a light: origin is the hit
position offset along the normal by `√(f32::EPSILON)`, aimed at the light. -/
noncomputable def shadow_ray (hit : Intersection) (light : PointLight) : Ray :=
  let pos := hit.pos + hit.normal * EPS_SQRT
  Ray.new pos (light.pos - pos)

/-- The local (ambient plus shadow-tested direct) color accumulated by
`trace_ray` before the reflection step: start from
`material.raw_color() * scene.ambient_coeff`, then for each light add
`material.color(shadow_ray, ray, hit) * light.intensity` when the shadow ray
hits nothing. -/
noncomputable def localColor (scene : Scene) (ray : Ray) (material : Material)
    (hit : Intersection) : Vec3 :=
  scene.lights.foldl
    (fun color light =>
      if scene.intersect (shadow_ray hit light) = none then
        color + material.color (shadow_ray hit light) ray hit * light.intensity
      else color)
    (material.raw_color * scene.ambient_coeff)

/-- `reflected_ray`: origin offset along the normal as for shadow rays,
direction `dir - normal * 2 * dot(dir, normal)`. -/
noncomputable def reflected_ray (ray : Ray) (hit : Intersection) : Ray :=
  let pos := hit.pos + hit.normal * EPS_SQRT
  let dir := ray.dir - (hit.normal * (2 : ℝ)) * dot ray.dir hit.normal
  Ray.new pos dir

/-- `trace_ray`: background on a miss; otherwise ambient plus shadow-tested
direct light, and below `MAX_DEPTH` a recursive reflection contribution when
the material's reflectivity is positive. -/
noncomputable def trace_ray (scene : Scene) (ray : Ray) (depth : ℕ) : Vec3 :=
  match scene.intersect ray with
  | none => Vec3.mk 0 0 0
  | some (obj, hit) =>
    let material := obj.material
    let color := localColor scene ray material hit
    if _h : MAX_DEPTH ≤ depth then color
    else
      let reflectivity := material.reflectivity
      if 0 < reflectivity then
        color + trace_ray scene (reflected_ray ray hit) (depth + 1) * reflectivity
      else color
termination_by MAX_DEPTH - depth
decreasing_by omega

theorem intersectStep_none (ray : Ray) (acc : Option (Surface × Intersection))
    (obj : Surface) (h : obj.intersect ray = none) :
    intersectStep ray acc obj = acc := by
  simp [intersectStep, h]

theorem intersectStep_hit_none (ray : Ray) (obj : Surface) (hit : Intersection)
    (h : obj.intersect ray = some hit) :
    intersectStep ray none obj = some (obj, hit) := by
  simp [intersectStep, h]

theorem intersectStep_hit_lt (ray : Ray) (obj p : Surface) (hit ph : Intersection)
    (h : obj.intersect ray = some hit) (hlt : hit.dist < ph.dist) :
    intersectStep ray (some (p, ph)) obj = some (obj, hit) := by
  simp [intersectStep, h, if_pos hlt]

theorem intersectStep_hit_ge (ray : Ray) (obj p : Surface) (hit ph : Intersection)
    (h : obj.intersect ray = some hit) (hge : ¬hit.dist < ph.dist) :
    intersectStep ray (some (p, ph)) obj = some (p, ph) := by
  simp [intersectStep, h, if_neg hge]

theorem foldl_intersect_none (ray : Ray) :
    ∀ (l : List Surface) (acc : Option (Surface × Intersection)),
      l.foldl (intersectStep ray) acc = none ↔
        acc = none ∧ ∀ o ∈ l, o.intersect ray = none := by
  intro l
  induction l with
  | nil => intro acc; simp
  | cons a l ih =>
    intro acc
    rw [List.foldl_cons, ih]
    rcases ha : a.intersect ray with _ | hit
    · rw [intersectStep_none ray acc a ha]
      constructor
      · rintro ⟨h1, h2⟩
        refine ⟨h1, ?_⟩
        intro o ho
        rcases List.mem_cons.1 ho with rfl | ho'
        · exact ha
        · exact h2 o ho'
      · rintro ⟨h1, h2⟩
        exact ⟨h1, fun o ho => h2 o (List.mem_cons_of_mem a ho)⟩
    · have hstep : ∃ q, intersectStep ray acc a = some q := by
        rcases acc with _ | ⟨p, ph⟩
        · exact ⟨(a, hit), intersectStep_hit_none ray a hit ha⟩
        · by_cases hlt : hit.dist < ph.dist
          · exact ⟨(a, hit), intersectStep_hit_lt ray a p hit ph ha hlt⟩
          · exact ⟨(p, ph), intersectStep_hit_ge ray a p hit ph ha hlt⟩
      rcases hstep with ⟨q, hq⟩
      rw [hq]
      simp only [Option.some_ne_none, false_and, false_iff, not_and, not_forall]
      intro _
      exact ⟨a, List.mem_cons_self a l, by simp [ha]⟩

theorem foldl_intersect_some (ray : Ray) :
    ∀ (l : List Surface) (acc : Option (Surface × Intersection))
      (o : Surface) (h : Intersection),
      l.foldl (intersectStep ray) acc = some (o, h) →
      (acc = some (o, h) ∧
        ∀ o' ∈ l, ∀ h', o'.intersect ray = some h' → h.dist ≤ h'.dist)
      ∨ (o.intersect ray = some h ∧
          (∀ p ph, acc = some (p, ph) → h.dist < ph.dist) ∧
          ∃ l₁ l₂, l = l₁ ++ o :: l₂ ∧
            (∀ o' ∈ l₁, ∀ h', o'.intersect ray = some h' → h.dist < h'.dist) ∧
            (∀ o' ∈ l₂, ∀ h', o'.intersect ray = some h' → h.dist ≤ h'.dist)) := by
  intro l
  induction l with
  | nil =>
    intro acc o h hfold
    rw [List.foldl_nil] at hfold
    exact Or.inl ⟨hfold, by simp⟩
  | cons a l ih =>
    intro acc o h hfold
    rw [List.foldl_cons] at hfold
    rcases ih (intersectStep ray acc a) o h hfold with ⟨hacc', hbound⟩ | hrec
    · -- the result was already the accumulator after processing `a`
      rcases ha : a.intersect ray with _ | hit
      · rw [intersectStep_none ray acc a ha] at hacc'
        refine Or.inl ⟨hacc', ?_⟩
        intro o' ho' h' hh'
        rcases List.mem_cons.1 ho' with rfl | ho''
        · rw [ha] at hh'; cases hh'
        · exact hbound o' ho'' h' hh'
      · rcases acc with _ | ⟨p, ph⟩
        · rw [intersectStep_hit_none ray a hit ha] at hacc'
          have h1 : a = o := congrArg Prod.fst (Option.some.inj hacc')
          have h2 : hit = h := congrArg Prod.snd (Option.some.inj hacc')
          subst h1; subst h2
          refine Or.inr ⟨ha, by simp, [], l, by simp, by simp, hbound⟩
        · by_cases hlt : hit.dist < ph.dist
          · rw [intersectStep_hit_lt ray a p hit ph ha hlt] at hacc'
            have h1 : a = o := congrArg Prod.fst (Option.some.inj hacc')
            have h2 : hit = h := congrArg Prod.snd (Option.some.inj hacc')
            subst h1; subst h2
            refine Or.inr ⟨ha, ?_, [], l, by simp, by simp, hbound⟩
            intro p' ph' hp'
            have h3 : p = p' := congrArg Prod.fst (Option.some.inj hp')
            have h4 : ph = ph' := congrArg Prod.snd (Option.some.inj hp')
            subst h3; subst h4
            exact hlt
          · rw [intersectStep_hit_ge ray a p hit ph ha hlt] at hacc'
            have h1 : p = o := congrArg Prod.fst (Option.some.inj hacc')
            have h2 : ph = h := congrArg Prod.snd (Option.some.inj hacc')
            subst h1; subst h2
            refine Or.inl ⟨rfl, ?_⟩
            intro o' ho' h' hh'
            rcases List.mem_cons.1 ho' with rfl | ho''
            · rw [ha] at hh'
              have : hit = h' := Option.some.inj hh'
              subst this
              exact le_of_not_lt hlt
            · exact hbound o' ho'' h' hh'
    · -- the result came from the tail `l`
      rcases hrec with ⟨ho, haccCond, l₁, l₂, heq, hstrict, hle⟩
      refine Or.inr ⟨ho, ?_, a :: l₁, l₂, by rw [heq]; simp, ?_, hle⟩
      · -- anything already in the accumulator is strictly farther
        intro p ph hacc
        subst hacc
        rcases ha : a.intersect ray with _ | hit
        · exact haccCond p ph (by rw [intersectStep_none ray _ a ha])
        · by_cases hlt : hit.dist < ph.dist
          · have := haccCond a hit (by rw [intersectStep_hit_lt ray a p hit ph ha hlt])
            exact lt_trans this hlt
          · exact haccCond p ph (by rw [intersectStep_hit_ge ray a p hit ph ha hlt])
      · -- everything before `o`, including `a`, is strictly farther
        intro o' ho' h' hh'
        rcases List.mem_cons.1 ho' with rfl | ho''
        · rcases acc with _ | ⟨p, ph⟩
          · exact haccCond o' h' (by rw [intersectStep_hit_none ray o' h' hh'])
          · by_cases hlt : h'.dist < ph.dist
            · exact haccCond o' h' (by rw [intersectStep_hit_lt ray o' p h' ph hh' hlt])
            · have := haccCond p ph (by rw [intersectStep_hit_ge ray o' p h' ph hh' hlt])
              exact lt_of_lt_of_le this (le_of_not_lt hlt)
        · exact hstrict o' ho'' h' hh'

/-- C1: `Scene.intersect` performs a linear scan and returns the
surface/intersection pair with minimal `dist` among all surfaces that
intersect the ray, ties broken in favor of the first-encountered surface in
insertion order (every surface listed before the winner either misses or hits
strictly farther), and returns `none` exactly when no surface intersects. -/
theorem scene_intersect_nearest (s : Scene) (r : Ray) :
    (s.intersect r = none ↔ ∀ o ∈ s.objects, o.intersect r = none) ∧
    (∀ obj hit, s.intersect r = some (obj, hit) →
      obj.intersect r = some hit ∧
      (∀ o' ∈ s.objects, ∀ h', o'.intersect r = some h' → hit.dist ≤ h'.dist) ∧
      ∃ l₁ l₂, s.objects = l₁ ++ obj :: l₂ ∧
        ∀ o' ∈ l₁, ∀ h', o'.intersect r = some h' → hit.dist < h'.dist) := by
  constructor
  · rw [Scene.intersect, foldl_intersect_none]
    simp
  · intro obj hit hfold
    rw [Scene.intersect] at hfold
    rcases foldl_intersect_some r s.objects none obj hit hfold with ⟨hacc, _⟩ | hrec
    · cases hacc
    · rcases hrec with ⟨ho, _, l₁, l₂, heq, hstrict, hle⟩
      refine ⟨ho, ?_, l₁, l₂, heq, hstrict⟩
      intro o' ho' h' hh'
      rw [heq] at ho'
      rcases List.mem_append.1 ho' with h₁ | h₂
      · exact le_of_lt (hstrict o' h₁ h' hh')
      · rcases List.mem_cons.1 h₂ with rfl | h₃
        · rw [ho] at hh'
          have : hit = h' := Option.some.inj hh'
          subst this
          exact le_refl _
        · exact hle o' h₃ h' hh'

/-- Companion of `trace_ray` with the same branch structure that counts the
recursive calls `trace_ray` performs instead of accumulating a color. -/
noncomputable def traceRayCalls (scene : Scene) (ray : Ray) (depth : ℕ) : ℕ :=
  match scene.intersect ray with
  | none => 0
  | some (obj, hit) =>
    if _h : MAX_DEPTH ≤ depth then 0
    else
      if 0 < obj.material.reflectivity then
        1 + traceRayCalls scene (reflected_ray ray hit) (depth + 1)
      else 0
termination_by MAX_DEPTH - depth
decreasing_by omega

/-! Concrete inputs used by the witnesses: trait objects with constant
intersection behaviour are legitimate `Surface`/`Material` instances. -/

/-- A material with black base color, unit white local response and zero
reflectivity. -/
def wMaterial : Material := ⟨⟨0, 0, 0⟩, fun _ _ _ => ⟨1, 1, 1⟩, 0⟩

def wHitNear : Intersection := ⟨⟨0, 0, 3⟩, ⟨0, 0, -1⟩, 3⟩

def wHitFar : Intersection := ⟨⟨0, 0, 5⟩, ⟨0, 0, -1⟩, 5⟩

/-- A surface that reports a hit at distance 5 for every ray. -/
def wSurfFar : Surface := ⟨fun _ => some wHitFar, wMaterial⟩

/-- A surface that reports a hit at distance 3 for every ray. -/
def wSurfNear : Surface := ⟨fun _ => some wHitNear, wMaterial⟩

def wCam : Camera := ⟨⟨0, 0, 0⟩, ⟨0, 0, 1⟩, ⟨0, 1, 0⟩, ⟨1, 0, 0⟩⟩

def wRay1 : Ray := ⟨⟨0, 0, 0⟩, ⟨0, 0, 1⟩⟩

/-- Scene with the farther surface listed first, so the scan must pick the
nearer, later one. -/
def wScene1 : Scene := ⟨[wSurfFar, wSurfNear], [], 1, ⟨0, 0, 0⟩, wCam⟩

theorem wScene1_intersect : Scene.intersect wScene1 wRay1 = some (wSurfNear, wHitNear) := by
  norm_num [Scene.intersect, wScene1, intersectStep, wSurfFar, wSurfNear, wHitNear, wHitFar]

/-- Witness for C1: on a concrete two-surface scene the scan returns the
nearer surface, which indeed intersects the ray and has minimal distance. -/
theorem scene_intersect_nearest_witness :
    wSurfNear.intersect wRay1 = some wHitNear ∧ wHitNear.dist ≤ wHitFar.dist := by
  have happ := (scene_intersect_nearest wScene1 wRay1).2 wSurfNear wHitNear wScene1_intersect
  exact ⟨happ.1, happ.2.1 wSurfFar (by simp [wScene1]) wHitFar rfl⟩

/-- C5: a ray that intersects no surface yields the black background color at
every depth. -/
theorem trace_ray_miss (s : Scene) (r : Ray) (d : ℕ) (h : s.intersect r = none) :
    trace_ray s r d = ⟨0, 0, 0⟩ := by
  rw [trace_ray]
  simp [h]

/-- A scene with no surfaces at all. -/
def emptyScene : Scene := ⟨[], [], 0.1, ⟨255, 255, 255⟩, wCam⟩

/-- Witness for C5: in the empty scene every ray misses and traces to black. -/
theorem trace_ray_miss_witness : trace_ray emptyScene wRay1 0 = ⟨0, 0, 0⟩ :=
  trace_ray_miss emptyScene wRay1 0 rfl

theorem trace_ray_hit (s : Scene) (r : Ray) (d : ℕ) (obj : Surface) (hit : Intersection)
    (h : s.intersect r = some (obj, hit)) :
    trace_ray s r d =
      if MAX_DEPTH ≤ d then localColor s r obj.material hit
      else if 0 < obj.material.reflectivity then
        localColor s r obj.material hit +
          trace_ray s (reflected_ray r hit) (d + 1) * obj.material.reflectivity
      else localColor s r obj.material hit := by
  rw [trace_ray, h]
  by_cases hd : MAX_DEPTH ≤ d
  · simp [hd]
  · by_cases hr : 0 < obj.material.reflectivity
    · simp [hd, hr]
    · simp [hd, hr]

theorem traceRayCalls_miss (s : Scene) (r : Ray) (d : ℕ) (h : s.intersect r = none) :
    traceRayCalls s r d = 0 := by
  rw [traceRayCalls, h]

theorem traceRayCalls_hit (s : Scene) (r : Ray) (d : ℕ) (obj : Surface) (hit : Intersection)
    (h : s.intersect r = some (obj, hit)) :
    traceRayCalls s r d =
      if MAX_DEPTH ≤ d then 0
      else if 0 < obj.material.reflectivity then
        1 + traceRayCalls s (reflected_ray r hit) (d + 1)
      else 0 := by
  rw [traceRayCalls, h]
  by_cases hd : MAX_DEPTH ≤ d
  · simp [hd]
  · by_cases hr : 0 < obj.material.reflectivity
    · simp [hd, hr]
    · simp [hd, hr]

theorem traceRayCalls_le_aux :
    ∀ (n : ℕ) (s : Scene) (r : Ray) (d : ℕ),
      MAX_DEPTH - d ≤ n → traceRayCalls s r d ≤ MAX_DEPTH - d := by
  intro n
  induction n with
  | zero =>
    intro s r d hn
    have hd : MAX_DEPTH ≤ d := by omega
    rcases hcase : s.intersect r with _ | ⟨obj, hit⟩
    · rw [traceRayCalls_miss s r d hcase]
      exact Nat.zero_le _
    · rw [traceRayCalls_hit s r d obj hit hcase, if_pos hd]
      exact Nat.zero_le _
  | succ n ih =>
    intro s r d hn
    rcases hcase : s.intersect r with _ | ⟨obj, hit⟩
    · rw [traceRayCalls_miss s r d hcase]
      exact Nat.zero_le _
    · rw [traceRayCalls_hit s r d obj hit hcase]
      by_cases hd : MAX_DEPTH ≤ d
      · rw [if_pos hd]
        exact Nat.zero_le _
      · rw [if_neg hd]
        by_cases hr : 0 < obj.material.reflectivity
        · rw [if_pos hr]
          have := ih s (reflected_ray r hit) (d + 1) (by omega)
          omega
        · rw [if_neg hr]
          exact Nat.zero_le _

/-- C4: the recursion of `trace_ray` is bounded: starting from depth `d` it
performs at most `MAX_DEPTH - d` recursive calls in total, because the depth
argument increases by 1 at each call and recursion only happens while
`depth < MAX_DEPTH`; in particular `trace_ray` terminates for every scene,
ray and starting depth (it is a total function of this development). -/
theorem trace_ray_terminating (s : Scene) (r : Ray) (d : ℕ) :
    traceRayCalls s r d ≤ MAX_DEPTH - d :=
  traceRayCalls_le_aux (MAX_DEPTH - d) s r d (le_refl _)

theorem dot_sub_left (a b c : Vec3) : dot (a - b) c = dot a c - dot b c := by
  simp [dot, Vec3.sub_def]; ring

theorem dot_sub_right (a b c : Vec3) : dot c (a - b) = dot c a - dot c b := by
  simp [dot, Vec3.sub_def]; ring

theorem smul_smul_v (v : Vec3) (a b : ℝ) : (v * a) * b = v * (a * b) := by
  simp [Vec3.smul_def, mul_assoc]

theorem normalize_of_unit (v : Vec3) (h : dot v v = 1) : normalize v = v := by
  unfold normalize norm
  rw [h, Real.sqrt_one, inv_one]
  simp [Vec3.smul_def, Vec3.ext_iff2]

/-- Reflecting a unit direction across a unit normal yields a unit vector. -/
theorem reflect_dot_self (d n : Vec3) (hd : dot d d = 1) (hn : dot n n = 1) :
    dot (d - (n * (2 : ℝ)) * dot d n) (d - (n * (2 : ℝ)) * dot d n) = 1 := by
  rw [smul_smul_v]
  simp only [dot_sub_left, dot_sub_right, dot_smul_left, dot_smul_right]
  rw [dot_comm n d, hd, hn]
  ring

/-- C3: `trace_ray` makes a recursive call exactly when the ray hits a
surface, the depth is below `MAX_DEPTH` and the hit material's reflectivity
is positive; in that case it adds the recursively traced reflected color
scaled by the reflectivity; at `depth ≥ MAX_DEPTH` it returns the
ambient-plus-direct color regardless of reflectivity; and for unit ray
direction and unit normal the reflected ray's direction is
`dir - normal * 2 * dot(dir, normal)` with origin offset along the normal
as in the shadow step. -/
theorem trace_ray_reflection (s : Scene) (r : Ray) (d : ℕ) :
    (0 < traceRayCalls s r d ↔
      ∃ obj hit, s.intersect r = some (obj, hit) ∧ d < MAX_DEPTH ∧
        0 < obj.material.reflectivity) ∧
    (∀ obj hit, s.intersect r = some (obj, hit) → d < MAX_DEPTH →
      0 < obj.material.reflectivity →
      trace_ray s r d =
        localColor s r obj.material hit +
          trace_ray s (reflected_ray r hit) (d + 1) * obj.material.reflectivity) ∧
    (∀ obj hit, s.intersect r = some (obj, hit) → MAX_DEPTH ≤ d →
      trace_ray s r d = localColor s r obj.material hit) ∧
    (∀ (r' : Ray) (hit : Intersection),
      dot r'.dir r'.dir = 1 → dot hit.normal hit.normal = 1 →
      (reflected_ray r' hit).origin = hit.pos + hit.normal * EPS_SQRT ∧
      (reflected_ray r' hit).dir =
        r'.dir - (hit.normal * (2 : ℝ)) * dot r'.dir hit.normal) := by
  refine ⟨?_, ?_, ?_, ?_⟩
  · constructor
    · intro hpos
      rcases hcase : s.intersect r with _ | ⟨obj, hit⟩
      · rw [traceRayCalls_miss s r d hcase] at hpos
        exact absurd hpos (lt_irrefl 0)
      · rw [traceRayCalls_hit s r d obj hit hcase] at hpos
        by_cases hd : MAX_DEPTH ≤ d
        · rw [if_pos hd] at hpos
          exact absurd hpos (lt_irrefl 0)
        · by_cases hr : 0 < obj.material.reflectivity
          · exact ⟨obj, hit, rfl, by omega, hr⟩
          · rw [if_neg hd, if_neg hr] at hpos
            exact absurd hpos (lt_irrefl 0)
    · rintro ⟨obj, hit, hcase, hd, hr⟩
      rw [traceRayCalls_hit s r d obj hit hcase, if_neg (by omega : ¬MAX_DEPTH ≤ d), if_pos hr]
      omega
  · intro obj hit hcase hd hr
    rw [trace_ray_hit s r d obj hit hcase, if_neg (by omega : ¬MAX_DEPTH ≤ d), if_pos hr]
  · intro obj hit hcase hd
    rw [trace_ray_hit s r d obj hit hcase, if_pos hd]
  · intro r' hit hd hn
    constructor
    · rfl
    · show normalize (r'.dir - (hit.normal * (2 : ℝ)) * dot r'.dir hit.normal) = _
      exact normalize_of_unit _ (reflect_dot_self r'.dir hit.normal hd hn)

/-- A material like `wMaterial` but fully reflective. -/
def wMaterialRefl : Material := ⟨⟨0, 0, 0⟩, fun _ _ _ => ⟨1, 1, 1⟩, 1⟩

/-- A reflective surface reporting a hit at distance 3 for every ray. -/
def wSurfRefl : Surface := ⟨fun _ => some wHitNear, wMaterialRefl⟩

def wSceneRefl : Scene := ⟨[wSurfRefl], [], 1, ⟨0, 0, 0⟩, wCam⟩

/-- Witness for C3: on a concrete reflective scene at depth 0 the traced
color is the local color plus the recursively traced reflection scaled by
the reflectivity. -/
theorem trace_ray_reflection_witness :
    trace_ray wSceneRefl wRay1 0 =
      localColor wSceneRefl wRay1 wSurfRefl.material wHitNear +
        trace_ray wSceneRefl (reflected_ray wRay1 wHitNear) 1 *
          wSurfRefl.material.reflectivity :=
  (trace_ray_reflection wSceneRefl wRay1 0).2.1 wSurfRefl wHitNear rfl (by decide)
    (by norm_num [wSurfRefl, wMaterialRefl])

theorem v_add_zero (v : Vec3) : v + 0 = v := by
  simp [Vec3.ext_iff2, Vec3.add_def, Vec3.zero_def]

theorem v_add_assoc (a b c : Vec3) : a + b + c = a + (b + c) := by
  simp [Vec3.ext_iff2, Vec3.add_def, add_assoc]

/-- Sum of a list of vectors. -/
def vsum (l : List Vec3) : Vec3 := l.foldr (fun v acc => v + acc) 0

theorem vsum_nil : vsum [] = 0 := rfl

theorem vsum_cons (v : Vec3) (l : List Vec3) : vsum (v :: l) = v + vsum l := rfl

theorem foldl_add_vsum {α : Type} (f : α → Vec3) :
    ∀ (l : List α) (init : Vec3),
      l.foldl (fun c x => c + f x) init = init + vsum (l.map f) := by
  intro l
  induction l with
  | nil => intro init; simp [vsum_nil, v_add_zero]
  | cons a l ih =>
    intro init
    rw [List.foldl_cons, ih, List.map_cons, vsum_cons, v_add_assoc]

theorem vsum_eq_zero : ∀ l : List Vec3, (∀ v ∈ l, v = (0 : Vec3)) → vsum l = 0 := by
  intro l
  induction l with
  | nil => intro _; rfl
  | cons a l ih =>
    intro h
    rw [vsum_cons, h a (List.mem_cons_self a l),
      ih (fun v hv => h v (List.mem_cons_of_mem a hv)), v_add_zero]

/-- The per-light accumulation of `trace_ray` as a sum: each light contributes
its (shadow-tested) term independently. -/
theorem localColor_eq_sum (s : Scene) (r : Ray) (m : Material) (hit : Intersection) :
    localColor s r m hit = m.raw_color * s.ambient_coeff +
      vsum (s.lights.map fun light =>
        if s.intersect (shadow_ray hit light) = none then
          m.color (shadow_ray hit light) r hit * light.intensity
        else 0) := by
  unfold localColor
  have hbody : (fun (color : Vec3) (light : PointLight) =>
      if s.intersect (shadow_ray hit light) = none then
        color + m.color (shadow_ray hit light) r hit * light.intensity
      else color) =
      fun color light => color +
        (if s.intersect (shadow_ray hit light) = none then
          m.color (shadow_ray hit light) r hit * light.intensity
        else (0 : Vec3)) := by
    funext color light
    by_cases hc : s.intersect (shadow_ray hit light) = none
    · rw [if_pos hc, if_pos hc]
    · rw [if_neg hc, if_neg hc, v_add_zero]
  rw [hbody, foldl_add_vsum]

/-- C2 (amended): the shadow ray starts at `hit.pos` offset along the normal
by `√(f32::EPSILON)` and points toward the light; the light's contribution
`material.color(...) * light.intensity` is added if and only if
`scene.intersect` on the shadow ray finds nothing at all (the code does not
compare the hit distance with the distance to the light, so a hit beyond the
light also suppresses the contribution); when every light's shadow ray is
blocked only the ambient term remains, so a fully occluded light contributes
zero direct lighting. -/
theorem trace_ray_shadow (s : Scene) (r : Ray) (m : Material) (hit : Intersection) :
    (∀ light : PointLight,
      (shadow_ray hit light).origin = hit.pos + hit.normal * EPS_SQRT ∧
      (shadow_ray hit light).dir =
        normalize (light.pos - (hit.pos + hit.normal * EPS_SQRT))) ∧
    localColor s r m hit = m.raw_color * s.ambient_coeff +
      vsum (s.lights.map fun light =>
        if s.intersect (shadow_ray hit light) = none then
          m.color (shadow_ray hit light) r hit * light.intensity
        else 0) ∧
    ((∀ light ∈ s.lights, s.intersect (shadow_ray hit light) ≠ none) →
      localColor s r m hit = m.raw_color * s.ambient_coeff) := by
  refine ⟨fun light => ⟨rfl, rfl⟩, localColor_eq_sum s r m hit, ?_⟩
  intro hAll
  rw [localColor_eq_sum s r m hit]
  have hz : vsum (s.lights.map fun light =>
      if s.intersect (shadow_ray hit light) = none then
        m.color (shadow_ray hit light) r hit * light.intensity
      else 0) = 0 := by
    refine vsum_eq_zero _ ?_
    intro v hv
    rcases List.mem_map.1 hv with ⟨light, hl, rfl⟩
    rw [if_neg (hAll light hl)]
  rw [hz, v_add_zero]

def wLight : PointLight := ⟨⟨0, 5, 0⟩, ⟨255, 255, 255⟩, 1⟩

/-- One-light scene whose single surface blocks every shadow ray. -/
def wSceneShadow : Scene := ⟨[wSurfNear], [wLight], 1, ⟨0, 0, 0⟩, wCam⟩

/-- Witness for C2: with the only light occluded, the local color collapses
to the ambient term. -/
theorem trace_ray_shadow_witness :
    localColor wSceneShadow wRay1 wMaterial wHitNear =
      wMaterial.raw_color * wSceneShadow.ambient_coeff :=
  (trace_ray_shadow wSceneShadow wRay1 wMaterial wHitNear).2.2
    (fun light _ => by
      rw [show Scene.intersect wSceneShadow (shadow_ray wHitNear light) =
          some (wSurfNear, wHitNear) from rfl]
      exact Option.some_ne_none _)

theorem f32_EPSILON_pos : 0 < f32_EPSILON := by
  rw [f32_EPSILON]; positivity

theorem f32_EPSILON_lt_one : f32_EPSILON < 1 := by
  rw [f32_EPSILON]; norm_num

theorem EPS_SQRT_pos : 0 < EPS_SQRT := Real.sqrt_pos.2 f32_EPSILON_pos

theorem EPS_SQRT_lt_one : EPS_SQRT < 1 := by
  rw [EPS_SQRT]
  have h := Real.sqrt_lt_sqrt (le_of_lt f32_EPSILON_pos) f32_EPSILON_lt_one
  rwa [Real.sqrt_one] at h

theorem norm_zz (t : ℝ) : norm ⟨0, 0, t⟩ = |t| := by
  rw [norm]
  simp only [dot]
  have h : (0 : ℝ) * 0 + 0 * 0 + t * t = t ^ 2 := by ring
  rw [h, Real.sqrt_sq_eq_abs]

theorem normalize_zz_neg (t : ℝ) (ht : t < 0) : normalize ⟨0, 0, t⟩ = ⟨0, 0, -1⟩ := by
  have ht' : t ≠ 0 := ne_of_lt ht
  unfold normalize
  rw [norm_zz, abs_of_neg ht, Vec3.smul_def, Vec3.ext_iff2]
  refine ⟨by simp, by simp, ?_⟩
  show t * (-t)⁻¹ = -1
  rw [inv_neg, mul_neg, mul_inv_cancel₀ ht']

/-! Counterexample inputs for the shadow test: the primary ray hits
`cexSurfA`; the shadow ray toward `cexLight` hits only `cexSurfB`, which
lies strictly beyond the light. -/

def cexHitA : Intersection := ⟨⟨0, 0, 5⟩, ⟨0, 0, -1⟩, 5⟩

def cexHitB : Intersection := ⟨⟨0, 0, 2⟩, ⟨0, 0, 1⟩, 3⟩

/-- A surface hit only by rays pointing in the +z direction. -/
noncomputable def cexSurfA : Surface :=
  ⟨fun r => if 0 < r.dir.z then some cexHitA else none, wMaterial⟩

/-- A surface hit only by rays pointing in the -z direction, at distance 3. -/
noncomputable def cexSurfB : Surface :=
  ⟨fun r => if r.dir.z < 0 then some cexHitB else none, wMaterial⟩

def cexLight : PointLight := ⟨⟨0, 0, 4⟩, ⟨255, 255, 255⟩, 1⟩

noncomputable def cexScene : Scene :=
  ⟨[cexSurfA, cexSurfB], [cexLight], 1, ⟨0, 0, 0⟩, wCam⟩

theorem cex_shadow_eq :
    shadow_ray cexHitA cexLight = ⟨⟨0, 0, 5 - EPS_SQRT⟩, ⟨0, 0, -1⟩⟩ := by
  have horig : cexHitA.pos + cexHitA.normal * EPS_SQRT = (⟨0, 0, 5 - EPS_SQRT⟩ : Vec3) := by
    rw [Vec3.ext_iff2]
    refine ⟨?_, ?_, ?_⟩ <;> simp [cexHitA, Vec3.add_def, Vec3.smul_def] <;> ring
  show (⟨cexHitA.pos + cexHitA.normal * EPS_SQRT,
    normalize (cexLight.pos - (cexHitA.pos + cexHitA.normal * EPS_SQRT))⟩ : Ray) = _
  rw [horig]
  have hdir : cexLight.pos - (⟨0, 0, 5 - EPS_SQRT⟩ : Vec3) =
      (⟨0, 0, EPS_SQRT - 1⟩ : Vec3) := by
    rw [Vec3.ext_iff2]
    refine ⟨?_, ?_, ?_⟩ <;> simp [cexLight, Vec3.sub_def] <;> ring
  rw [hdir, normalize_zz_neg (EPS_SQRT - 1) (by linarith [EPS_SQRT_lt_one])]

theorem cex_primary : Scene.intersect cexScene wRay1 = some (cexSurfA, cexHitA) := by
  have h1 : cexSurfA.intersect wRay1 = some cexHitA := by
    norm_num [cexSurfA, wRay1]
  have h2 : cexSurfB.intersect wRay1 = none := by
    norm_num [cexSurfB, wRay1]
  show List.foldl (intersectStep wRay1) none [cexSurfA, cexSurfB] = _
  rw [List.foldl_cons, intersectStep_hit_none wRay1 cexSurfA cexHitA h1,
    List.foldl_cons, intersectStep_none wRay1 _ cexSurfB h2, List.foldl_nil]

theorem cex_shadow_intersect :
    Scene.intersect cexScene (shadow_ray cexHitA cexLight) = some (cexSurfB, cexHitB) := by
  rw [cex_shadow_eq]
  have h1 : cexSurfA.intersect ⟨⟨0, 0, 5 - EPS_SQRT⟩, ⟨0, 0, -1⟩⟩ = none := by
    norm_num [cexSurfA]
  have h2 : cexSurfB.intersect ⟨⟨0, 0, 5 - EPS_SQRT⟩, ⟨0, 0, -1⟩⟩ = some cexHitB := by
    norm_num [cexSurfB]
  show List.foldl (intersectStep _) none [cexSurfA, cexSurfB] = _
  rw [List.foldl_cons, intersectStep_none _ none cexSurfA h1,
    List.foldl_cons, intersectStep_hit_none _ cexSurfB cexHitB h2, List.foldl_nil]

theorem cex_trace : trace_ray cexScene wRay1 0 = ⟨0, 0, 0⟩ := by
  rw [trace_ray_hit cexScene wRay1 0 cexSurfA cexHitA cex_primary]
  rw [if_neg (by decide : ¬MAX_DEPTH ≤ 0)]
  rw [if_neg (by norm_num [cexSurfA, wMaterial] :
    ¬(0 : ℝ) < cexSurfA.material.reflectivity)]
  rw [localColor_eq_sum]
  have hmap : cexScene.lights.map (fun light =>
      if cexScene.intersect (shadow_ray cexHitA light) = none then
        cexSurfA.material.color (shadow_ray cexHitA light) wRay1 cexHitA *
          light.intensity
      else 0) = [(0 : Vec3)] := by
    show [if Scene.intersect cexScene (shadow_ray cexHitA cexLight) = none then _ else (0 : Vec3)] = [(0 : Vec3)]
    rw [if_neg (by rw [cex_shadow_intersect]; exact Option.some_ne_none _)]
  rw [hmap]
  rw [vsum_cons, vsum_nil, v_add_zero, v_add_zero]
  rw [Vec3.ext_iff2]
  refine ⟨?_, ?_, ?_⟩ <;> simp [cexSurfA, wMaterial, cexScene, Vec3.smul_def]

/-- C2 counterexample: on `cexScene` the shadow ray's only hit (`cexSurfB`,
the nearest hit by C1) lies strictly beyond the light, so nothing blocks the
light before it; the claim then demands that the light's contribution be
added, but the traced color is the bare ambient term `(0,0,0)` and not the
ambient term plus the contribution. -/
theorem trace_ray_shadow_counterexample :
    Scene.intersect cexScene wRay1 = some (cexSurfA, cexHitA) ∧
    Scene.intersect cexScene (shadow_ray cexHitA cexLight) = some (cexSurfB, cexHitB) ∧
    norm (cexLight.pos - (shadow_ray cexHitA cexLight).origin) < cexHitB.dist ∧
    trace_ray cexScene wRay1 0 = ⟨0, 0, 0⟩ ∧
    trace_ray cexScene wRay1 0 ≠
      (⟨0, 0, 0⟩ : Vec3) +
        cexSurfA.material.color (shadow_ray cexHitA cexLight) wRay1 cexHitA *
          cexLight.intensity := by
  refine ⟨cex_primary, cex_shadow_intersect, ?_, cex_trace, ?_⟩
  · rw [cex_shadow_eq]
    have h : cexLight.pos - (⟨0, 0, 5 - EPS_SQRT⟩ : Vec3) =
        (⟨0, 0, EPS_SQRT - 1⟩ : Vec3) := by
      rw [Vec3.ext_iff2]
      refine ⟨?_, ?_, ?_⟩ <;> simp [cexLight, Vec3.sub_def] <;> ring
    show norm (cexLight.pos - (⟨0, 0, 5 - EPS_SQRT⟩ : Vec3)) < cexHitB.dist
    rw [h, norm_zz, abs_of_neg (by linarith [EPS_SQRT_lt_one] : EPS_SQRT - 1 < 0)]
    show -(EPS_SQRT - 1) < (3 : ℝ)
    linarith [EPS_SQRT_pos]
  · rw [cex_trace]
    intro hcontra
    rw [Vec3.ext_iff2] at hcontra
    rcases hcontra with ⟨hx, _, _⟩
    norm_num [cexSurfA, wMaterial, cexLight, Vec3.add_def, Vec3.smul_def] at hx

/-- C8: `Camera::get_ray` emits a ray from the camera position whose
direction is the normalization of `right*nx + up*ny + dir` for the
normalized pixel coordinates `nx = x/RENDER_WIDTH - 0.5` and
`ny = y/RENDER_HEIGHT - 0.5`. -/
theorem get_ray_spec (cam : Camera) (x y : ℕ) :
    (cam.get_ray x y).origin = cam.pos ∧
    (cam.get_ray x y).dir =
      normalize (cam.right * ((x : ℝ) / (RENDER_WIDTH : ℝ) - 0.5) +
        cam.up * ((y : ℝ) / (RENDER_HEIGHT : ℝ) - 0.5) + cam.dir) :=
  ⟨rfl, rfl⟩

/-- C9: the constructor `Ray::new` normalizes, so a ray built from a nonzero
direction stores a unit-length direction; rays are immutable, and all rays
the program creates go through this constructor. -/
theorem ray_new_unit_dir (o d : Vec3) (h : d ≠ 0) : norm (Ray.new o d).dir = 1 :=
  norm_normalize d h

/-- Witness for C9 at the nonzero direction `(0,0,3)`. -/
theorem ray_new_unit_dir_witness :
    norm (Ray.new ⟨0, 0, 0⟩ ⟨0, 0, 3⟩).dir = 1 :=
  ray_new_unit_dir ⟨0, 0, 0⟩ ⟨0, 0, 3⟩
    (by
      intro h
      have h3 := congrArg Vec3.z h
      rw [show Vec3.z (0 : Vec3) = 0 from rfl] at h3
      norm_num at h3)

theorem scene_update_intersect (s : Scene) (c : Vec3) (r : Ray) :
    Scene.intersect { s with ambient_color := c } r = Scene.intersect s r := rfl

theorem localColor_update (s : Scene) (c : Vec3) (r : Ray) (m : Material)
    (hit : Intersection) :
    localColor { s with ambient_color := c } r m hit = localColor s r m hit := rfl

theorem trace_ray_ambient_aux :
    ∀ (n : ℕ) (s : Scene) (c : Vec3) (r : Ray) (d : ℕ), MAX_DEPTH - d ≤ n →
      trace_ray { s with ambient_color := c } r d = trace_ray s r d := by
  intro n
  induction n with
  | zero =>
    intro s c r d hn
    have hd : MAX_DEPTH ≤ d := by omega
    rcases hcase : Scene.intersect s r with _ | ⟨obj, hit⟩
    · rw [trace_ray_miss s r d hcase,
        trace_ray_miss _ r d (by rw [scene_update_intersect]; exact hcase)]
    · rw [trace_ray_hit s r d obj hit hcase,
        trace_ray_hit _ r d obj hit (by rw [scene_update_intersect]; exact hcase),
        if_pos hd, if_pos hd, localColor_update]
  | succ n ih =>
    intro s c r d hn
    rcases hcase : Scene.intersect s r with _ | ⟨obj, hit⟩
    · rw [trace_ray_miss s r d hcase,
        trace_ray_miss _ r d (by rw [scene_update_intersect]; exact hcase)]
    · rw [trace_ray_hit s r d obj hit hcase,
        trace_ray_hit _ r d obj hit (by rw [scene_update_intersect]; exact hcase)]
      by_cases hd : MAX_DEPTH ≤ d
      · rw [if_pos hd, if_pos hd, localColor_update]
      · rw [if_neg hd, if_neg hd, localColor_update]
        by_cases hr : 0 < obj.material.reflectivity
        · rw [if_pos hr, if_pos hr, ih s c (reflected_ray r hit) (d + 1) (by omega)]
        · rw [if_neg hr, if_neg hr]

/-- C10: `trace_ray` never reads `ambient_color`: changing only that field of
the scene leaves the traced color of every ray at every depth unchanged (the
ambient term uses the material's raw color times `ambient_coeff`). -/
theorem trace_ray_ambient_color_independent (s : Scene) (c : Vec3) (r : Ray) (d : ℕ) :
    trace_ray { s with ambient_color := c } r d = trace_ray s r d :=
  trace_ray_ambient_aux (MAX_DEPTH - d) s c r d (le_refl _)

theorem cross_dot_left (a b : Vec3) : dot (cross a b) a = 0 := by
  simp [cross, dot]; ring

theorem cross_dot_right (a b : Vec3) : dot (cross a b) b = 0 := by
  simp [cross, dot]; ring

theorem cross_self_lagrange (a b : Vec3) :
    dot (cross a b) (cross a b) = dot a a * dot b b - dot a b ^ 2 := by
  simp [cross, dot]; ring

theorem cross_smul_left (v : Vec3) (a : ℝ) (u : Vec3) :
    cross (v * a) u = cross v u * a := by
  rw [Vec3.ext_iff2]
  refine ⟨?_, ?_, ?_⟩ <;> simp [cross, Vec3.smul_def] <;> ring

theorem smul_ne_zero_v (v : Vec3) (a : ℝ) (hv : v ≠ 0) (ha : a ≠ 0) :
    v * a ≠ 0 := by
  intro h
  apply hv
  rw [Vec3.zero_def, Vec3.smul_def, Vec3.ext_iff2] at h
  rw [Vec3.zero_def, Vec3.ext_iff2]
  rcases h with ⟨h1, h2, h3⟩
  exact ⟨(mul_eq_zero.1 h1).resolve_right ha,
    (mul_eq_zero.1 h2).resolve_right ha,
    (mul_eq_zero.1 h3).resolve_right ha⟩

theorem camera_new_right (pos dir up : Vec3) :
    (Camera.new pos dir up).right = normalize (cross up dir) := rfl

theorem camera_new_up (pos dir up : Vec3) :
    (Camera.new pos dir up).up =
      normalize (cross (normalize (cross up dir)) dir) := rfl

theorem camera_new_dir (pos dir up : Vec3) :
    (Camera.new pos dir up).dir = normalize dir := rfl

theorem cross_orthogonal_ne_zero (w d : Vec3) (hw : w ≠ 0) (hd : d ≠ 0)
    (hwd : dot w d = 0) : cross w d ≠ 0 := by
  intro h
  have hlag := cross_self_lagrange w d
  rw [h] at hlag
  rw [show dot (0 : Vec3) 0 = 0 by simp [dot, Vec3.zero_def]] at hlag
  rw [hwd] at hlag
  have hww := dot_self_pos w hw
  have hdd := dot_self_pos d hd
  nlinarith

/-- C7: for any position and non-degenerate forward/up-hint pair (nonzero
`dir` and `cross up dir`, i.e. `up_hint` not parallel to `dir`), the stored
camera basis `right`, `up`, `dir` consists of pairwise orthogonal unit
vectors. -/
theorem camera_basis_orthonormal (pos dir up : Vec3)
    (hdir : dir ≠ 0) (hcross : cross up dir ≠ 0) :
    norm (Camera.new pos dir up).right = 1 ∧
    norm (Camera.new pos dir up).up = 1 ∧
    norm (Camera.new pos dir up).dir = 1 ∧
    dot (Camera.new pos dir up).right (Camera.new pos dir up).up = 0 ∧
    dot (Camera.new pos dir up).right (Camera.new pos dir up).dir = 0 ∧
    dot (Camera.new pos dir up).up (Camera.new pos dir up).dir = 0 := by
  have hw : cross up dir ≠ 0 := hcross
  have hnw : (0 : ℝ) < norm (cross up dir) :=
    Real.sqrt_pos.2 (dot_self_pos _ hw)
  have hinv : (norm (cross up dir))⁻¹ ≠ 0 := inv_ne_zero (ne_of_gt hnw)
  have hcwd : cross (cross up dir) dir ≠ 0 :=
    cross_orthogonal_ne_zero (cross up dir) dir hw hdir (cross_dot_right up dir)
  have hrd : cross (normalize (cross up dir)) dir =
      cross (cross up dir) dir * (norm (cross up dir))⁻¹ := by
    rw [normalize, cross_smul_left]
  have hrd_ne : cross (normalize (cross up dir)) dir ≠ 0 := by
    rw [hrd]
    exact smul_ne_zero_v _ _ hcwd hinv
  refine ⟨?_, ?_, ?_, ?_, ?_, ?_⟩
  · rw [camera_new_right]
    exact norm_normalize _ hw
  · rw [camera_new_up]
    exact norm_normalize _ hrd_ne
  · rw [camera_new_dir]
    exact norm_normalize _ hdir
  · rw [camera_new_right, camera_new_up]
    show dot (normalize (cross up dir))
      ((cross (normalize (cross up dir)) dir) * (norm (cross (normalize (cross up dir)) dir))⁻¹) = 0
    rw [dot_smul_right, dot_comm, cross_dot_left, mul_zero]
  · rw [camera_new_right, camera_new_dir]
    show dot ((cross up dir) * (norm (cross up dir))⁻¹) (dir * (norm dir)⁻¹) = 0
    rw [dot_smul_left, dot_smul_right, cross_dot_right, mul_zero, mul_zero]
  · rw [camera_new_up, camera_new_dir]
    show dot ((cross (normalize (cross up dir)) dir) * (norm (cross (normalize (cross up dir)) dir))⁻¹)
      (dir * (norm dir)⁻¹) = 0
    rw [dot_smul_left, dot_smul_right, cross_dot_right, mul_zero, mul_zero]

/-- Witness for C7: the camera built from forward `(0,0,1)` and up-hint
`(0,1,0)` has a unit `right` vector orthogonal to its `up` vector. -/
theorem camera_basis_orthonormal_witness :
    norm (Camera.new ⟨0, 0, 0⟩ ⟨0, 0, 1⟩ ⟨0, 1, 0⟩).right = 1 ∧
    dot (Camera.new ⟨0, 0, 0⟩ ⟨0, 0, 1⟩ ⟨0, 1, 0⟩).right
      (Camera.new ⟨0, 0, 0⟩ ⟨0, 0, 1⟩ ⟨0, 1, 0⟩).up = 0 := by
  have hdir : (⟨0, 0, 1⟩ : Vec3) ≠ 0 := by
    intro h
    have h3 := congrArg Vec3.z h
    rw [show Vec3.z (0 : Vec3) = 0 from rfl] at h3
    norm_num at h3
  have hcross : cross ⟨0, 1, 0⟩ ⟨0, 0, 1⟩ ≠ (0 : Vec3) := by
    intro h
    have h1 := congrArg Vec3.x h
    rw [show Vec3.x (0 : Vec3) = 0 from rfl] at h1
    norm_num [cross] at h1
  have happ := camera_basis_orthonormal ⟨0, 0, 0⟩ ⟨0, 0, 1⟩ ⟨0, 1, 0⟩ hdir hcross
  exact ⟨happ.1, happ.2.2.2.1⟩

/-- Modelled from the spec: `Sphere` (center, radius, owned material) is
declared in the missing `src/surface.rs` module. -/
structure Sphere where
  center : Vec3
  radius : ℝ
  material : Material

/-- Modelled from the spec: `Sphere::intersect` from the missing
`src/surface.rs`, following the spec's quadratic description: with
`b = 2·dot(dir, origin-center)` and `c = |origin-center|² - radius²`, no hit
when the discriminant `b² - 4c` is negative; otherwise use the root
`d2 = 0.5(-b-√disc)` when positive, else `d1 = 0.5(-b+√disc)` when positive,
else no hit; the normal is `normalize(hit_pos - center)`. -/
noncomputable def Sphere.intersect (s : Sphere) (ray : Ray) : Option Intersection :=
  let v := ray.origin - s.center
  let b := 2 * dot ray.dir v
  let c := dot v v - s.radius * s.radius
  let disc := b * b - 4 * c
  if disc < 0 then none
  else
    let d1 := 0.5 * (-b + Real.sqrt disc)
    let d2 := 0.5 * (-b - Real.sqrt disc)
    if 0 < d2 then
      let pos := ray.origin + ray.dir * d2
      some ⟨pos, normalize (pos - s.center), d2⟩
    else if 0 < d1 then
      let pos := ray.origin + ray.dir * d1
      some ⟨pos, normalize (pos - s.center), d1⟩
    else none

theorem dot_add_left (a b c : Vec3) : dot (a + b) c = dot a c + dot b c := by
  simp [dot, Vec3.add_def]; ring

theorem dot_add_right (a b c : Vec3) : dot c (a + b) = dot c a + dot c b := by
  simp [dot, Vec3.add_def]; ring

theorem add_smul_sub_assoc (o d c : Vec3) (t : ℝ) :
    (o + d * t) - c = (o - c) + d * t := by
  rw [Vec3.ext_iff2]
  refine ⟨?_, ?_, ?_⟩ <;> simp [Vec3.add_def, Vec3.sub_def, Vec3.smul_def] <;> ring

/-- If `t` solves `t² + bt + c = 0` for `b = 2·dot(d,v)`, `c = dot(v,v) - r²`
and unit `d`, the point `v + d·t` lies on the sphere of radius `r`. -/
theorem sphere_root_property (v d : Vec3) (r t : ℝ)
    (hunit : dot d d = 1)
    (hroot : t * t + (2 * dot d v) * t + (dot v v - r * r) = 0) :
    dot (v + d * t) (v + d * t) = r * r := by
  simp only [dot_add_left, dot_add_right, dot_smul_left, dot_smul_right, hunit]
  rw [dot_comm v d]
  linear_combination hroot

theorem quadratic_root_plus (b c : ℝ) (h : 0 ≤ b * b - 4 * c) :
    (0.5 * (-b + Real.sqrt (b * b - 4 * c))) * (0.5 * (-b + Real.sqrt (b * b - 4 * c))) +
      b * (0.5 * (-b + Real.sqrt (b * b - 4 * c))) + c = 0 := by
  have hs := Real.mul_self_sqrt h
  linear_combination (1 / 4 : ℝ) * hs

theorem quadratic_root_minus (b c : ℝ) (h : 0 ≤ b * b - 4 * c) :
    (0.5 * (-b - Real.sqrt (b * b - 4 * c))) * (0.5 * (-b - Real.sqrt (b * b - 4 * c))) +
      b * (0.5 * (-b - Real.sqrt (b * b - 4 * c))) + c = 0 := by
  have hs := Real.mul_self_sqrt h
  linear_combination (1 / 4 : ℝ) * hs

theorem iPos (p n : Vec3) (d : ℝ) : (Intersection.mk p n d).pos = p := rfl

theorem iNormal (p n : Vec3) (d : ℝ) : (Intersection.mk p n d).normal = n := rfl

theorem iDist (p n : Vec3) (d : ℝ) : (Intersection.mk p n d).dist = d := rfl

theorem sphere_intersect_neg_disc (s : Sphere) (ray : Ray)
    (hdisc : 2 * dot ray.dir (ray.origin - s.center) *
        (2 * dot ray.dir (ray.origin - s.center)) -
      4 * (dot (ray.origin - s.center) (ray.origin - s.center) -
        s.radius * s.radius) < 0) :
    s.intersect ray = none := by
  simp only [Sphere.intersect]
  rw [if_pos hdisc]

theorem sphere_intersect_sound (s : Sphere) (ray : Ray) (hit : Intersection)
    (hsome : s.intersect ray = some hit) :
    0 < hit.dist ∧
    hit.pos = ray.origin + ray.dir * hit.dist ∧
    hit.normal = normalize (hit.pos - s.center) ∧
    (dot ray.dir ray.dir = 1 →
      dot (hit.pos - s.center) (hit.pos - s.center) = s.radius * s.radius) := by
  simp only [Sphere.intersect] at hsome
  split at hsome
  · exact Option.noConfusion hsome
  · rename_i hdisc
    have hdisc' := not_lt.1 hdisc
    split at hsome
    · rename_i h2
      have hhit := (Option.some.inj hsome).symm
      refine ⟨?_, ?_, ?_, ?_⟩
      · simp only [hhit, iDist]; exact h2
      · simp only [hhit, iPos, iDist]
      · simp only [hhit, iNormal, iPos]
      · intro hunit
        simp only [hhit, iPos, iDist]
        rw [add_smul_sub_assoc]
        exact sphere_root_property (ray.origin - s.center) ray.dir s.radius _ hunit
          (quadratic_root_minus (2 * dot ray.dir (ray.origin - s.center))
            (dot (ray.origin - s.center) (ray.origin - s.center) - s.radius * s.radius)
            hdisc')
    · split at hsome
      · rename_i h2 h1
        have hhit := (Option.some.inj hsome).symm
        refine ⟨?_, ?_, ?_, ?_⟩
        · simp only [hhit, iDist]; exact h1
        · simp only [hhit, iPos, iDist]
        · simp only [hhit, iNormal, iPos]
        · intro hunit
          simp only [hhit, iPos, iDist]
          rw [add_smul_sub_assoc]
          exact sphere_root_property (ray.origin - s.center) ray.dir s.radius _ hunit
            (quadratic_root_plus (2 * dot ray.dir (ray.origin - s.center))
              (dot (ray.origin - s.center) (ray.origin - s.center) - s.radius * s.radius)
              hdisc')
      · exact Option.noConfusion hsome

theorem sphere_example_eval :
    Sphere.intersect ⟨⟨0, 0, 0⟩, 1, wMaterial⟩ ⟨⟨0, 0, -4⟩, ⟨0, 0, 1⟩⟩ =
      some ⟨⟨0, 0, -1⟩, ⟨0, 0, -1⟩, 3⟩ := by
  have hs4 : Real.sqrt 4 = 2 := by
    rw [show (4 : ℝ) = 2 ^ 2 by norm_num, Real.sqrt_sq (by norm_num : (0 : ℝ) ≤ 2)]
  have hnn : normalize ⟨0, 0, -1⟩ = (⟨0, 0, -1⟩ : Vec3) :=
    normalize_zz_neg (-1) (by norm_num)
  simp only [Sphere.intersect]
  norm_num [dot, Vec3.sub_def, Vec3.add_def, Vec3.smul_def, hs4, hnn, Vec3.ext_iff2]

/-- C6: `Sphere::intersect` (modelled from the spec, its source file being
absent) returns no hit on a negative discriminant; any returned hit has a
strictly positive distance, position `origin + dir*dist`, normal
`normalize(pos - center)`, and (for a unit ray direction) lies exactly on
the sphere; and on the unit sphere at the origin the ray from `(0,0,-4)`
toward `(0,0,1)` hits at `(0,0,-1)` with distance 3 and normal `(0,0,-1)`. -/
theorem sphere_intersect_spec :
    (∀ (s : Sphere) (ray : Ray),
      2 * dot ray.dir (ray.origin - s.center) *
          (2 * dot ray.dir (ray.origin - s.center)) -
        4 * (dot (ray.origin - s.center) (ray.origin - s.center) -
          s.radius * s.radius) < 0 →
      s.intersect ray = none) ∧
    (∀ (s : Sphere) (ray : Ray) (hit : Intersection), s.intersect ray = some hit →
      0 < hit.dist ∧
      hit.pos = ray.origin + ray.dir * hit.dist ∧
      hit.normal = normalize (hit.pos - s.center) ∧
      (dot ray.dir ray.dir = 1 →
        dot (hit.pos - s.center) (hit.pos - s.center) = s.radius * s.radius)) ∧
    Sphere.intersect ⟨⟨0, 0, 0⟩, 1, wMaterial⟩ ⟨⟨0, 0, -4⟩, ⟨0, 0, 1⟩⟩ =
      some ⟨⟨0, 0, -1⟩, ⟨0, 0, -1⟩, 3⟩ :=
  ⟨sphere_intersect_neg_disc, sphere_intersect_sound, sphere_example_eval⟩

/-- Witness for C6: the distance returned on the concrete example is
positive. -/
theorem sphere_intersect_spec_witness :
    0 < ((⟨⟨0, 0, -1⟩, ⟨0, 0, -1⟩, 3⟩ : Intersection)).dist :=
  (sphere_intersect_spec.2.1 ⟨⟨0, 0, 0⟩, 1, wMaterial⟩ ⟨⟨0, 0, -4⟩, ⟨0, 0, 1⟩⟩
    ⟨⟨0, 0, -1⟩, ⟨0, 0, -1⟩, 3⟩ sphere_intersect_spec.2.2).1

end RayTrace
